import Mathlib

/-!
Verification development for `crt_generator.py` (GIF-Generators repository).

The program renders a fixed-length CRT-style animation: per frame it builds a
radial-glow background, draws text, then threads the frame through an effects
pipeline (bloom, glitch kick / probabilistic tearing, scanlines, vignette,
noise, flicker, barrel distortion) and finally writes the frame list to a GIF.

Embedding conventions:
* A `Frame` is a width, a height and a total pixel function `row → col → Pix`
  (numpy index order `arr[y, x]`); channel values are naturals, valid frames
  keep them in `0..255` (`uint8`).
* numpy float arithmetic (`/255.0`, `*`, `np.clip`, `*255`,
  `.astype(np.uint8)`) is embedded over `ℚ`; the final `astype(np.uint8)`
  truncates toward zero, i.e. `Int.floor` on the nonnegative post-clip values.
* Transcendental grids computed by numpy (`np.sqrt`-based normalized radii,
  float `**` powers) and external PIL calls (`GaussianBlur`, text drawing) are
  not expressible exactly; they enter as explicit function parameters
  (`RenderEnv`), so every theorem quantifies over them.
* The process-wide `random` module is an explicit stream `ℕ → ℚ` of unit
  draws.  `random.randint a b` maps one draw into `[a, b]` and, exactly like
  Python (`ValueError: empty range`), fails when `b < a`; fallible code is
  `Option`-valued.  `np.random` (used only by `add_noise`) is a separate
  generator and enters as a noise-grid parameter.
-/

namespace CRT

/-- One RGB pixel; channel values of a valid (`uint8`) frame lie in `0..255`. -/
structure Pix where
  r : ℕ
  g : ℕ
  b : ℕ
deriving DecidableEq, Repr

/-- A frame: rectangular pixel grid, `pix y x` is the pixel in row `y`,
column `x` (numpy order `arr[y, x]`). -/
structure Frame where
  width : ℕ
  height : ℕ
  pix : ℕ → ℕ → Pix

/-- The `random` module, as an explicit stream of unit-interval draws. -/
abbrev RStream := ℕ → ℚ

/-- Drop the first draw of a stream. -/
def rtail (s : RStream) : RStream := fun n => s (n + 1)

/-- `np.clip x lo hi`. -/
def clip (x lo hi : ℚ) : ℚ := min (max x lo) hi

/-- `(value * 255).astype(np.uint8)` on a post-clip value in `[0, 1]`:
scale back to `0..255` and truncate toward zero. -/
def toByte (q : ℚ) : ℕ := (⌊q * 255⌋).toNat

/-- `arr.astype(np.float32) / 255.0`: channel value scaled into `[0, 1]`. -/
def byteToQ (n : ℕ) : ℚ := (n : ℚ) / 255

/-- Horizontal wraparound index: `ImageChops.offset` addresses the source at
`(x - dx) mod width`, so shifted pixels reappear at the opposite edge. -/
def zmod (a : ℤ) (w : ℕ) : ℕ := (a.emod w).toNat

/-- Apply the same channel transform to all three channels of a pixel
(numpy broadcasting over the channel axis). -/
def mapPix (f : ℕ → ℕ) (p : Pix) : Pix := ⟨f p.r, f p.g, f p.b⟩

/-- All three channel values are within the valid display range `0..255`. -/
abbrev inRange (p : Pix) : Prop := p.r ≤ 255 ∧ p.g ≤ 255 ∧ p.b ≤ 255

/-- Every pixel of the (in-bounds) grid is within the display range. -/
abbrev Frame.valid (f : Frame) : Prop :=
  ∀ y < f.height, ∀ x < f.width, inRange (f.pix y x)

/-! ## IEEE-754 binary rounding over `ℚ`

`apply_scanlines` is exactness-sensitive (its spec claims an exact dimming
ratio), so its float32 arithmetic is embedded exactly: `flRound p q` rounds
the rational `q` to a `p`-bit significand, to nearest with ties to even —
IEEE-754 round-to-nearest for float32 (`p = 24`) and float64 (`p = 53`) in
the normal range (de-normals and overflow never arise for the pipeline's
values in `[0, 255]`). -/

/-- `np.rint` / IEEE rounding step: round to nearest, ties to even. -/
def rint (q : ℚ) : ℤ :=
  if q - ⌊q⌋ < 1 / 2 then ⌊q⌋
  else if 1 / 2 < q - ⌊q⌋ then ⌊q⌋ + 1
  else if ⌊q⌋ % 2 = 0 then ⌊q⌋ else ⌊q⌋ + 1

/-- `⌊log2⌋` on naturals by fuelled halving (kernel-reducible, unlike the
well-founded `Nat.log2`); `fuel ≥ log2 n` suffices, and `nlog2` passes
`fuel = n`. -/
def nlog2A (fuel : ℕ) : ℕ → ℕ :=
  Nat.rec (fun _ => 0) (fun _ ih n => if n ≤ 1 then 0 else ih (n / 2) + 1) fuel

/-- `⌊log2 n⌋` for `n ≥ 1` (and 0 at 0). -/
def nlog2 (n : ℕ) : ℕ := nlog2A n n

/-- `⌊log2 q⌋` for a positive rational (0 on nonpositive input). -/
def qlog2floor (q : ℚ) : ℤ :=
  if q.num ≤ 0 then 0
  else if q.den ≤ q.num.toNat then (nlog2 (q.num.toNat / q.den) : ℤ)
  else if q.den ≤ q.num.toNat * 2 ^ nlog2 (q.den / q.num.toNat) then
    -(nlog2 (q.den / q.num.toNat) : ℤ)
  else -(nlog2 (q.den / q.num.toNat) : ℤ) - 1

/-- Round a positive rational to a `p`-bit significand, nearest/ties-even:
scale into `[2^(p-1), 2^p)`, round to an integer, scale back. -/
def flRoundPos (p : ℕ) (q : ℚ) : ℚ :=
  (rint (q * 2 ^ (((p : ℤ) - 1) - qlog2floor q)) : ℚ) *
    2 ^ (qlog2floor q - ((p : ℤ) - 1))

/-- IEEE-754 round-to-nearest-even at significand precision `p` (sign
symmetric, exact at 0). -/
def flRound (p : ℕ) (q : ℚ) : ℚ :=
  if q = 0 then 0
  else if q < 0 then -flRoundPos p (-q)
  else flRoundPos p q

/-- float32 rounding (24-bit significand). -/
def fl32 (q : ℚ) : ℚ := flRound 24 q

/-- float64 rounding (53-bit significand), for Python-level float
constants and arithmetic. -/
def fl64 (q : ℚ) : ℚ := flRound 53 q

/-! ## Configuration constants (`crt_generator.py`, lines 13-52) -/

/-- `FRAMES = 48`. -/
def FRAMES : ℕ := 48

/-- `FPS = 12`. -/
def FPS : ℕ := 12

/-- `DURATION_MS = int(1000 / FPS)`: Python `int()` truncates the positive
float `1000 / 12` toward zero. -/
def DURATION_MS : ℕ := (⌊(1000 : ℚ) / (FPS : ℚ)⌋).toNat

/-- `SCANLINE_OPACITY = 0.22`: the exact value of the IEEE-754 double the
Python literal `0.22` denotes. -/
def SCANLINE_OPACITY : ℚ := fl64 (22 / 100)

/-- `BLOOM_GAIN = 0.75`. -/
def BLOOM_GAIN : ℚ := 75 / 100

/-- `VIGNETTE_STRENGTH = 0.35`. -/
def VIGNETTE_STRENGTH : ℚ := 35 / 100

/-- `NOISE_STRENGTH = 0.06` (bounds the `np.random.uniform` noise draws). -/
def NOISE_STRENGTH : ℚ := 6 / 100

/-- `TEAR_PROB = 0.5`. -/
def TEAR_PROB : ℚ := 1 / 2

/-- `TEAR_BANDS = (1, 3)`. -/
def TEAR_BANDS : ℤ × ℤ := (1, 3)

/-- `TEAR_SHIFT_PX = 16`. -/
def TEAR_SHIFT_PX : ℤ := 16

/-- `CHROMA_GLITCH_FRAMES = {0, 1}`: the loop-start "kick" frame indices. -/
def CHROMA_GLITCH_FRAMES : Finset ℕ := {0, 1}

/-- `CHROMA_SHIFT_PX = 1`. -/
def CHROMA_SHIFT_PX : ℤ := 1

/-- `CURVATURE_K = 0.08`. -/
def CURVATURE_K : ℚ := 8 / 100

/-- `FLICKER_MIN = 0.95`. -/
def FLICKER_MIN : ℚ := 95 / 100

/-- `FLICKER_MAX = 1.05`. -/
def FLICKER_MAX : ℚ := 105 / 100

/-- `CRT_BG_STRENGTH = 0.18`. -/
def CRT_BG_STRENGTH : ℚ := 18 / 100

/-- `CRT_BG_TINT = (0, 140, 40)`. -/
def CRT_BG_TINT : Pix := ⟨0, 140, 40⟩

/-- `BG = (0, 0, 0)`: the black background color. -/
def BG : Pix := ⟨0, 0, 0⟩

/-- `BANNER_SIZE = (1200, 480)`. -/
def BANNER_SIZE : ℕ × ℕ := (1200, 480)

/-- `OVERLAY_SIZE = (1920, 1080)`. -/
def OVERLAY_SIZE : ℕ × ℕ := (1920, 1080)

/-! ## The `random` module -/

/-- `random.randint a b`: one stream draw mapped uniformly into the inclusive
range `[a, b]` (`a + ⌊u * (b - a + 1)⌋` for `u ∈ [0, 1)`, clamped so the
result lies in `[a, b]` for every rational draw); raises (`none`) on an empty
range `b < a`, exactly as Python's `randrange` does. -/
def randint (a b : ℤ) (s : RStream) : Option (ℤ × RStream) :=
  if b < a then none
  else some (a + min (b - a) (max 0 ⌊s 0 * ((b : ℚ) - a + 1)⌋), rtail s)

/-- `random.uniform low high = low + (high - low) * random()`. -/
def uniformDraw (low high : ℚ) (s : RStream) : ℚ × RStream :=
  (low + (high - low) * s 0, rtail s)

/-! ## Effects pipeline stages -/

/-- Row multiplier of `apply_scanlines`: the mask is a float32 array of
ones with rows `1::2` (odd rows) set to `1.0 - opacity` — the float64
difference, rounded to float32 on store. -/
def scanMask (opacity : ℚ) (y : ℕ) : ℚ :=
  if y % 2 = 1 then fl32 (fl64 (1 - opacity)) else 1

/-- One channel of `apply_scanlines`, float32 throughout:
`np.array(img).astype(np.float32) / 255.0` (rounded division), `*= mask`
(rounded product), `np.clip(_, 0, 1)` (exact), `* 255` (rounded product),
`.astype(np.uint8)` (truncation toward zero). -/
def scanChan (m : ℚ) (c : ℕ) : ℕ :=
  (⌊fl32 (clip (fl32 (fl32 (byteToQ c) * m)) 0 1 * 255)⌋).toNat

/-- `apply_scanlines(img, opacity)` (lines 71-78): per-channel float32
scanline chain under the row mask. -/
def apply_scanlines (opacity : ℚ) (img : Frame) : Frame :=
  { width := img.width, height := img.height,
    pix := fun y x => mapPix (scanChan (scanMask opacity y)) (img.pix y x) }

/-- `Image.blend(base, glow, gain)` per channel: PIL computes
`in1 + alpha * (in2 - in1)` in float and casts back to `uint8`
(truncation toward zero). -/
def blendPix (gain : ℚ) (p q : Pix) : Pix :=
  ⟨(⌊(p.r : ℚ) + gain * ((q.r : ℚ) - (p.r : ℚ))⌋).toNat,
   (⌊(p.g : ℚ) + gain * ((q.g : ℚ) - (p.g : ℚ))⌋).toNat,
   (⌊(p.b : ℚ) + gain * ((q.b : ℚ) - (p.b : ℚ))⌋).toNat⟩

/-- `add_bloom_simple(base, radius, gain)` (lines 80-82): blend the frame with
a Gaussian-blurred copy of itself.  `base.filter(ImageFilter.GaussianBlur r)`
is an external PIL call and enters as the function parameter `blur` (it is a
size-preserving `uint8` image transform). -/
def add_bloom_simple (blur : Frame → Frame) (gain : ℚ) (base : Frame) : Frame :=
  { width := base.width, height := base.height,
    pix := fun y x => blendPix gain (base.pix y x) ((blur base).pix y x) }

/-- `vignette(img, strength)` (lines 84-94): multiply each pixel by
`1 - strength * r**1.5`, clip to `[0, 1]`, back to `uint8`.  The grid
`r**1.5` (normalized `np.sqrt` radii raised to the float power `1.5`) is
transcendental and enters as the parameter `rpow15 y x`. -/
def vignette (strength : ℚ) (rpow15 : ℕ → ℕ → ℚ) (img : Frame) : Frame :=
  { width := img.width, height := img.height,
    pix := fun y x =>
      mapPix (fun c => toByte (clip (byteToQ c * (1 - strength * rpow15 y x)) 0 1))
        (img.pix y x) }

/-- `add_noise(img, strength)` (lines 96-100): add per-channel noise drawn by
`np.random.uniform(-strength, strength, size=arr.shape)` (a separate generator
from the `random` module, passed as the grid `noise y x`), clip, back to
`uint8`. -/
def add_noise (noise : ℕ → ℕ → ℚ × ℚ × ℚ) (img : Frame) : Frame :=
  { width := img.width, height := img.height,
    pix := fun y x =>
      let p := img.pix y x
      let v := noise y x
      ⟨toByte (clip (byteToQ p.r + v.1) 0 1),
       toByte (clip (byteToQ p.g + v.2.1) 0 1),
       toByte (clip (byteToQ p.b + v.2.2) 0 1)⟩ }

/-- `barrel_distort(img, k)` (lines 102-121).  `k <= 0` short-circuits to the
input.  Otherwise every destination pixel samples the source at the
inverse-barrel coordinate (`factor = 1 + k*r²`), `np.rint`-rounded and
clamped to the grid.  For `k > 0` and a degenerate axis (`w ≤ 1` or `h ≤ 1`)
the center divisor `cx` or `cy` is zero, the float division yields `nan`, and
the `nan`-cast index makes `src[ys_nn, xs_nn]` raise an `IndexError`
(modelled as `none`). -/
def barrel_distort (k : ℚ) (img : Frame) : Option Frame :=
  if k ≤ 0 then some img
  else if img.width ≤ 1 ∨ img.height ≤ 1 then none
  else some
    { width := img.width, height := img.height,
      pix := fun ys xs =>
        let cx : ℚ := ((img.width : ℚ) - 1) / 2
        let cy : ℚ := ((img.height : ℚ) - 1) / 2
        let x : ℚ := ((xs : ℚ) - cx) / cx
        let y : ℚ := ((ys : ℚ) - cy) / cy
        let factor : ℚ := 1 + k * (x * x + y * y)
        let xsrc : ℚ := (x / factor) * cx + cx
        let ysrc : ℚ := (y / factor) * cy + cy
        let xn : ℕ := (min (max (rint xsrc) 0) ((img.width : ℤ) - 1)).toNat
        let yn : ℕ := (min (max (rint ysrc) 0) ((img.height : ℤ) - 1)).toNat
        img.pix yn xn }

/-- `chroma_shift(img, shift_px)` (lines 123-129): `shift_px <= 0`
short-circuits to the input; otherwise the red channel is offset by
`-shift_px` and the blue channel by `+shift_px` via `ImageChops.offset`,
which wraps around the edges (`out x` samples `(x - dx) mod w`). -/
def chroma_shift (shift_px : ℤ) (img : Frame) : Frame :=
  if shift_px ≤ 0 then img
  else
    { width := img.width, height := img.height,
      pix := fun y x =>
        ⟨(img.pix y (zmod ((x : ℤ) + shift_px) img.width)).r,
         (img.pix y x).g,
         (img.pix y (zmod ((x : ℤ) - shift_px) img.width)).b⟩ }

/-- One tearing band (loop body of lines 136-142): the rows `ty ≤ y < ty+th`
are cropped from the current base, offset horizontally by `shift` with
wraparound (`ImageChops.offset`), and pasted back at the same rows. -/
def pasteShifted (base : Frame) (ty th shift : ℤ) : Frame :=
  { width := base.width, height := base.height,
    pix := fun y x =>
      if ty ≤ (y : ℤ) ∧ (y : ℤ) < ty + th then
        base.pix y (zmod ((x : ℤ) - shift) base.width)
      else base.pix y x }

/-- One iteration of the tearing loop: draw the band height
`th = randint(4, max(6, int(h*0.06)))`, the band top `ty = randint(0, h-th)`
(this raises when `th > h`), the shift `randint(-max_shift, max_shift)`,
then paste the shifted band. -/
def tearBand (h : ℕ) (max_shift : ℤ) (base : Frame) (s : RStream) :
    Option (Frame × RStream) :=
  (randint 4 (max 6 ⌊(h : ℚ) * (6 / 100)⌋) s).bind fun th =>
  (randint 0 ((h : ℤ) - th.1) th.2).bind fun ty =>
  (randint (-max_shift) max_shift ty.2).map fun sh =>
  (pasteShifted base ty.1 th.1 sh.1, sh.2)

/-- The tearing loop, `n` bands applied in sequence to the evolving base. -/
def tearLoop (h : ℕ) (max_shift : ℤ) : ℕ → Frame → RStream →
    Option (Frame × RStream)
  | 0, base, s => some (base, s)
  | n + 1, base, s =>
    (tearBand h max_shift base s).bind fun p => tearLoop h max_shift n p.1 p.2

/-- `tearing(img, max_shift, bands)` (lines 131-143): `max_shift <= 0`
short-circuits to the input; otherwise `randint(bands[0], bands[1])` bands
are torn in sequence. -/
def tearing (max_shift : ℤ) (bands : ℤ × ℤ) (img : Frame) (s : RStream) :
    Option (Frame × RStream) :=
  if max_shift ≤ 0 then some (img, s)
  else
    (randint bands.1 bands.2 s).bind fun n =>
    tearLoop img.height max_shift n.1.toNat img n.2

/-- `flicker(img, low, high)` (lines 145-149): one `random.uniform(low, high)`
draw scales the whole frame, then clip and back to `uint8`. -/
def flicker (low high : ℚ) (img : Frame) (s : RStream) : Frame × RStream :=
  let factor : ℚ := low + (high - low) * s 0
  ({ width := img.width, height := img.height,
     pix := fun y x =>
       mapPix (fun c => toByte (clip (byteToQ c * factor) 0 1)) (img.pix y x) },
   rtail s)

/-! ## CRT background (lines 151-168) -/

/-- The radial mask of `crt_background`: `(1 - r**1.8) * strength`.  The
normalized-radius grid (`np.sqrt` distances divided by their maximum) enters
as `rFun`, the float power operator as `powf`. -/
def crt_mask (rFun : ℕ → ℕ → ℚ) (powf : ℚ → ℚ → ℚ) (strength : ℚ)
    (y x : ℕ) : ℚ :=
  (1 - powf (rFun y x) (9 / 5)) * strength

/-- The pre-clip glow channel values `(tint / 255) * mask` of
`crt_background`. -/
def crt_raw (rFun : ℕ → ℕ → ℚ) (powf : ℚ → ℚ → ℚ) (tint : Pix) (strength : ℚ)
    (y x : ℕ) : ℚ × ℚ × ℚ :=
  (byteToQ tint.r * crt_mask rFun powf strength y x,
   byteToQ tint.g * crt_mask rFun powf strength y x,
   byteToQ tint.b * crt_mask rFun powf strength y x)

/-- The glow layer of `crt_background`: pre-clip values clipped to `[0, 1]`
and converted to `uint8`. -/
def crt_glow (rFun : ℕ → ℕ → ℚ) (powf : ℚ → ℚ → ℚ) (w h : ℕ) (tint : Pix)
    (strength : ℚ) : Frame :=
  { width := w, height := h,
    pix := fun y x =>
      let v := crt_raw rFun powf tint strength y x
      ⟨toByte (clip v.1 0 1), toByte (clip v.2.1 0 1), toByte (clip v.2.2 0 1)⟩ }

/-- `ImageChops.add`: per-channel saturating addition on `uint8`. -/
def satAddPix (p q : Pix) : Pix :=
  ⟨min (p.r + q.r) 255, min (p.g + q.g) 255, min (p.b + q.b) 255⟩

/-- `crt_background(size, tint, strength)` (lines 151-168): a black base plus
(`ImageChops.add`) the radial glow layer. -/
def crt_background (rFun : ℕ → ℕ → ℚ) (powf : ℚ → ℚ → ℚ) (w h : ℕ)
    (tint : Pix) (strength : ℚ) : Frame :=
  let glow := crt_glow rFun powf w h tint strength
  { width := w, height := h,
    pix := fun y x => satAddPix BG (glow.pix y x) }

/-! ## Sequence renderer (`render_sequence`, lines 170-209) -/

/-- The external/transcendental collaborators of one `render_sequence` call:
text drawing (`ImageDraw.Draw` + `draw.text`, an in-place PIL operation),
Gaussian blur, the normalized-radius grids of `crt_background` and
`vignette`, the float power operator, and the `np.random` noise grid of each
frame index. -/
structure RenderEnv where
  drawText : Frame → Frame
  blur : Frame → Frame
  rFun : ℕ → ℕ → ℚ
  powf : ℚ → ℚ → ℚ
  rpow15 : ℕ → ℕ → ℚ
  noise : ℕ → ℕ → ℕ → ℚ × ℚ × ℚ

/-- The frame entering the glitch branch: CRT background, then text drawing,
then bloom (`Image.blend(frame, frame.filter(GaussianBlur(BLOOM_RADIUS)),
BLOOM_GAIN)`, line 190). -/
def baseFrame (env : RenderEnv) (w h : ℕ) : Frame :=
  add_bloom_simple env.blur BLOOM_GAIN
    (env.drawText (crt_background env.rFun env.powf w h CRT_BG_TINT CRT_BG_STRENGTH))

/-- The post-glitch stages of one frame (lines 200-205): scanlines, vignette,
noise (with this frame's `np.random` grid), flicker (one `random.uniform`
draw), barrel distortion. -/
def postFx (env : RenderEnv) (i : ℕ) (f : Frame) (s : RStream) :
    Option (Frame × RStream) :=
  let sc := apply_scanlines SCANLINE_OPACITY f
  let vg := vignette VIGNETTE_STRENGTH env.rpow15 sc
  let nz := add_noise (env.noise i) vg
  let fl := flicker FLICKER_MIN FLICKER_MAX nz s
  (barrel_distort CURVATURE_K fl.1).map (fun bd => (bd, fl.2))

/-- One loop iteration of `render_sequence` (lines 175-207): build the base
frame, apply the glitch kick (`i ∈ CHROMA_GLITCH_FRAMES`: chroma shift then
strong tearing with bands `(2, 4)`, unconditionally) or, for other indices,
the weak tearing with probability `TEAR_PROB` (one `random.random()` draw,
`s 0`), then the post-glitch stages. -/
def renderFrame (env : RenderEnv) (w h i : ℕ) (s : RStream) :
    Option (Frame × RStream) :=
  let f0 := baseFrame env w h
  let glitched : Option (Frame × RStream) :=
    if i ∈ CHROMA_GLITCH_FRAMES then
      tearing TEAR_SHIFT_PX (2, 4) (chroma_shift CHROMA_SHIFT_PX f0) s
    else if s 0 < TEAR_PROB then
      tearing (TEAR_SHIFT_PX / 2) TEAR_BANDS f0 (rtail s)
    else some (f0, rtail s)
  glitched.bind (fun p => postFx env i p.1 p.2)

/-- `n` consecutive loop iterations of `render_sequence` starting at frame
index `i`, collecting the frames in order. -/
def renderCount (env : RenderEnv) (w h : ℕ) : ℕ → ℕ → RStream →
    Option (List Frame × RStream)
  | _, 0, s => some ([], s)
  | i, n + 1, s =>
    (renderFrame env w h i s).bind fun f =>
    (renderCount env w h (i + 1) n f.2).map fun rest =>
    (f.1 :: rest.1, rest.2)

/-- The arguments `render_sequence` hands to `imageio.mimsave` (line 209):
the ordered frame list, `duration=DURATION_MS/1000.0` seconds per frame, and
`loop=0` (loop forever). -/
structure SaveArgs where
  frames : List Frame
  durationSec : ℚ
  loop : ℕ

/-- `render_sequence(out_path, size, font_px)` (lines 170-209): render
`FRAMES` frames in index order and pass them to the encoder.  The font and
output path only feed the external text-drawing and file-writing
collaborators, which are abstracted into `env` and `SaveArgs`. -/
def render_sequence (env : RenderEnv) (w h : ℕ) (s : RStream) :
    Option SaveArgs :=
  (renderCount env w h 0 FRAMES s).map
    (fun p => ⟨p.1, (DURATION_MS : ℚ) / 1000, 0⟩)

/-! ## Concrete instances used by witnesses and counterexamples -/

/-- A trivial environment: identity external transforms, zero grids. -/
def env0 : RenderEnv :=
  ⟨id, id, fun _ _ => 0, fun _ _ => 0, fun _ _ => 0, fun _ _ _ => (0, 0, 0)⟩

/-- The all-zeros random stream. -/
def s0 : RStream := fun _ => 0

/-- Two frames have the same dimensions. -/
def sameDims (a b : Frame) : Prop := a.width = b.width ∧ a.height = b.height

/-- A fallible stage preserved dimensions (vacuously, when it raised). -/
def sameDimsO : Option Frame → Frame → Prop
  | none, _ => True
  | some a, b => sameDims a b

/-- A fallible stream-threading stage preserved dimensions. -/
def sameDimsP : Option (Frame × RStream) → Frame → Prop
  | none, _ => True
  | some p, b => sameDims p.1 b

/-- A fallible stage produced a valid frame (vacuously, when it raised). -/
def validO : Option Frame → Prop
  | none => True
  | some a => a.valid

/-- A fallible stream-threading stage produced a valid frame. -/
def validP : Option (Frame × RStream) → Prop
  | none => True
  | some p => p.1.valid

/-- The text-drawing collaborator draws in place: it never changes a frame's
dimensions (PIL's `ImageDraw.Draw` + `draw.text` mutate the image). -/
def preservesDims (t : Frame → Frame) : Prop :=
  ∀ f, (t f).width = f.width ∧ (t f).height = f.height

/-- A small concrete 2×2 test frame with in-range channels. -/
def tf : Frame := ⟨2, 2, fun y x => ⟨40 * y + x, 100, 255⟩⟩

/-- A 1×1 test frame (degenerate height: tearing always raises on it). -/
def tf1 : Frame := ⟨1, 1, fun _ _ => ⟨0, 255, 120⟩⟩

/-- A 2×6 test frame, tall enough for tearing to always complete. -/
def tf6 : Frame := ⟨2, 6, fun _ _ => ⟨0, 255, 120⟩⟩

/-- A uniform-brightness frame: every channel of every pixel equals `c`. -/
def uniformFrame (w h c : ℕ) : Frame := ⟨w, h, fun _ _ => ⟨c, c, c⟩⟩

/-- Average brightness of row `y`: mean over the row of the per-pixel channel
means. -/
def rowMean (f : Frame) (y : ℕ) : ℚ :=
  (∑ x ∈ Finset.range f.width,
    (((f.pix y x).r : ℚ) + ((f.pix y x).g : ℚ) + ((f.pix y x).b : ℚ)) / 3) /
    (f.width : ℚ)

/-- The encoder call (when reached) passes a per-frame duration of exactly
`83/1000` seconds (`int(1000/12) = 83` milliseconds) and `loop = 0`, the
loop-forever flag. -/
def SaveOk : Option SaveArgs → Prop
  | none => True
  | some a => a.durationSec = 83 / 1000 ∧ a.loop = 0

/-- The all-ones random stream (every `random.random()` draw at the top of
its range, so probabilistic branches are not taken). -/
def sOne : RStream := fun _ => 1

/-! ## Basic lemmas -/

theorem nlog2A_succ (fuel n : ℕ) :
    nlog2A (fuel + 1) n = if n ≤ 1 then 0 else nlog2A fuel (n / 2) + 1 := rfl

theorem nlog2A_spec : ∀ fuel n : ℕ, 1 ≤ n → n ≤ 2 ^ fuel →
    2 ^ nlog2A fuel n ≤ n ∧ n < 2 ^ (nlog2A fuel n + 1) := by
  intro fuel
  induction fuel with
  | zero =>
    intro n h1 h2
    have hn : n = 1 := le_antisymm (by simpa using h2) h1
    subst hn
    exact ⟨by decide, by decide⟩
  | succ fuel ih =>
    intro n h1 h2
    rw [nlog2A_succ]
    by_cases hn : n ≤ 1
    · rw [if_pos hn]
      have : n = 1 := le_antisymm hn h1
      subst this
      exact ⟨by decide, by decide⟩
    · rw [if_neg hn]
      push_neg at hn
      have hh1 : 1 ≤ n / 2 := by omega
      have hh2 : n / 2 ≤ 2 ^ fuel := by
        rw [pow_succ] at h2
        omega
      obtain ⟨ha, hb⟩ := ih (n / 2) hh1 hh2
      constructor
      · rw [pow_succ]
        omega
      · rw [pow_succ, pow_succ]
        rw [pow_succ] at hb
        omega

theorem nlog2_spec {n : ℕ} (h : 1 ≤ n) :
    2 ^ nlog2 n ≤ n ∧ n < 2 ^ (nlog2 n + 1) :=
  nlog2A_spec n n h (le_of_lt n.lt_two_pow)

theorem zpow_qlog2floor_le {q : ℚ} (hq : 0 < q) : (2 : ℚ) ^ qlog2floor q ≤ q := by
  have hnum : 0 < q.num := Rat.num_pos.mpr hq
  have hd1 : 0 < q.den := q.pos
  have hn1 : 1 ≤ q.num.toNat := by omega
  have hq_eq : ((q.num.toNat : ℕ) : ℚ) / ((q.den : ℕ) : ℚ) = q := by
    have hcast : ((q.num.toNat : ℕ) : ℚ) = ((q.num : ℤ) : ℚ) := by
      exact_mod_cast Int.toNat_of_nonneg (le_of_lt hnum)
    rw [hcast]
    exact Rat.num_div_den q
  have hdQ : (0 : ℚ) < ((q.den : ℕ) : ℚ) := by exact_mod_cast hd1
  unfold qlog2floor
  rw [if_neg (not_le.mpr hnum)]
  split
  · rename_i hdn
    rw [zpow_natCast]
    have hnd1 : 1 ≤ q.num.toNat / q.den := (Nat.one_le_div_iff hd1).mpr hdn
    obtain ⟨ha, _⟩ := nlog2_spec hnd1
    calc (2 : ℚ) ^ nlog2 (q.num.toNat / q.den)
        = ((2 ^ nlog2 (q.num.toNat / q.den) : ℕ) : ℚ) := by push_cast; ring
      _ ≤ ((q.num.toNat / q.den : ℕ) : ℚ) := by exact_mod_cast ha
      _ ≤ ((q.num.toNat : ℕ) : ℚ) / ((q.den : ℕ) : ℚ) := Nat.cast_div_le
      _ = q := hq_eq
  · rename_i hdn
    split
    · rename_i hdl
      have key : (1 : ℚ) / 2 ^ nlog2 (q.den / q.num.toNat)
          ≤ ((q.num.toNat : ℕ) : ℚ) / ((q.den : ℕ) : ℚ) := by
        rw [div_le_div_iff₀ (by positivity) hdQ, one_mul]
        exact_mod_cast hdl
      rw [hq_eq] at key
      rw [zpow_neg, zpow_natCast, inv_eq_one_div]
      exact key
    · rename_i hdl
      have hn0 : 0 < q.num.toNat := hn1
      have hdn' : q.num.toNat < q.den := not_le.mp hdn
      have hdn1 : 1 ≤ q.den / q.num.toNat :=
        (Nat.one_le_div_iff hn0).mpr (le_of_lt hdn')
      obtain ⟨_, hb⟩ := nlog2_spec hdn1
      have hd_lt : q.den
          < q.num.toNat * 2 ^ (nlog2 (q.den / q.num.toNat) + 1) := by
        have hmod := Nat.div_add_mod q.den q.num.toNat
        have hmlt : q.den % q.num.toNat < q.num.toNat := Nat.mod_lt _ hn0
        have h5 : q.den / q.num.toNat + 1
            ≤ 2 ^ (nlog2 (q.den / q.num.toNat) + 1) := hb
        calc q.den < q.num.toNat * (q.den / q.num.toNat) + q.num.toNat := by
              omega
          _ = q.num.toNat * (q.den / q.num.toNat + 1) := by ring
          _ ≤ q.num.toNat * 2 ^ (nlog2 (q.den / q.num.toNat) + 1) :=
              Nat.mul_le_mul_left _ h5
      have key : (1 : ℚ) / 2 ^ (nlog2 (q.den / q.num.toNat) + 1)
          ≤ ((q.num.toNat : ℕ) : ℚ) / ((q.den : ℕ) : ℚ) := by
        rw [div_le_div_iff₀ (by positivity) hdQ, one_mul]
        exact_mod_cast le_of_lt hd_lt
      rw [hq_eq] at key
      have hexp : -(nlog2 (q.den / q.num.toNat) : ℤ) - 1
          = -((nlog2 (q.den / q.num.toNat) + 1 : ℕ) : ℤ) := by push_cast; ring
      rw [hexp, zpow_neg, zpow_natCast, inv_eq_one_div]
      exact key

theorem rint_le (y : ℚ) : (rint y : ℚ) ≤ y + 1 := by
  have h0 : (⌊y⌋ : ℚ) ≤ y := Int.floor_le y
  unfold rint
  split_ifs <;> push_cast <;> linarith

theorem flRound_le {p : ℕ} {q : ℚ} (h0 : 0 ≤ q) :
    flRound p q ≤ q * (1 + 2 ^ (1 - (p : ℤ))) := by
  unfold flRound
  split_ifs with h1 h2
  · subst h1
    simp
  · exact absurd h2 (not_lt.mpr h0)
  · have hq : 0 < q := lt_of_le_of_ne h0 (Ne.symm h1)
    unfold flRoundPos
    have h2e : (0 : ℚ) < 2 ^ (qlog2floor q - ((p : ℤ) - 1)) :=
      zpow_pos (by norm_num) _
    have hr := rint_le (q * 2 ^ (((p : ℤ) - 1) - qlog2floor q))
    have step1 : (rint (q * 2 ^ (((p : ℤ) - 1) - qlog2floor q)) : ℚ) *
        2 ^ (qlog2floor q - ((p : ℤ) - 1))
        ≤ (q * 2 ^ (((p : ℤ) - 1) - qlog2floor q) + 1) *
          2 ^ (qlog2floor q - ((p : ℤ) - 1)) :=
      mul_le_mul_of_nonneg_right hr (le_of_lt h2e)
    have step2 : (q * 2 ^ (((p : ℤ) - 1) - qlog2floor q) + 1) *
        2 ^ (qlog2floor q - ((p : ℤ) - 1))
        = q + 2 ^ (qlog2floor q - ((p : ℤ) - 1)) := by
      rw [add_mul, mul_assoc, ← zpow_add₀ (by norm_num : (2 : ℚ) ≠ 0)]
      norm_num
    have step3 : (2 : ℚ) ^ (qlog2floor q - ((p : ℤ) - 1))
        ≤ q * 2 ^ (1 - (p : ℤ)) := by
      have hsplit : (2 : ℚ) ^ (qlog2floor q - ((p : ℤ) - 1))
          = 2 ^ qlog2floor q * 2 ^ (1 - (p : ℤ)) := by
        rw [← zpow_add₀ (by norm_num : (2 : ℚ) ≠ 0)]
        congr 1
        omega
      rw [hsplit]
      exact mul_le_mul_of_nonneg_right (zpow_qlog2floor_le hq)
        (le_of_lt (zpow_pos (by norm_num) _))
    have := le_trans step1 (le_of_eq step2)
    nlinarith [step3]

theorem pow_sub_23 : ((2 : ℚ)) ^ ((1 : ℤ) - 24) = 1 / 8388608 := by
  norm_num

theorem clip01_nonneg (v : ℚ) : 0 ≤ clip v 0 1 := by
  unfold clip
  exact le_min (le_max_right v 0) zero_le_one

theorem clip01_le_one (v : ℚ) : clip v 0 1 ≤ 1 := min_le_right _ _

theorem clip_eq_self {v lo hi : ℚ} (h0 : lo ≤ v) (h1 : v ≤ hi) :
    clip v lo hi = v := by
  unfold clip
  rw [max_eq_left h0, min_eq_left h1]

theorem floor_toNat_le_255 {v : ℚ} (h : v ≤ 255) : (⌊v⌋).toNat ≤ 255 := by
  have h1 : (⌊v⌋ : ℚ) ≤ 255 := le_trans (Int.floor_le v) h
  have h2 : ⌊v⌋ ≤ (255 : ℤ) := by exact_mod_cast h1
  omega

theorem toByte_clip_le (v : ℚ) : toByte (clip v 0 1) ≤ 255 := by
  unfold toByte
  have h1 : clip v 0 1 * 255 ≤ 255 := by
    have := clip01_le_one v
    nlinarith
  exact floor_toNat_le_255 h1


theorem zmod_lt (a : ℤ) {w : ℕ} (hw : 0 < w) : zmod a w < w := by
  have hw' : (0 : ℤ) < (w : ℤ) := by exact_mod_cast hw
  have h1 : 0 ≤ a.emod w := Int.emod_nonneg a (ne_of_gt hw')
  have h2 : a.emod w < w := Int.emod_lt_of_pos a hw'
  unfold zmod
  omega

theorem byteToQ_nonneg (n : ℕ) : 0 ≤ byteToQ n := by
  unfold byteToQ
  positivity

theorem byteToQ_le_one {n : ℕ} (h : n ≤ 255) : byteToQ n ≤ 1 := by
  unfold byteToQ
  rw [div_le_one (by norm_num)]
  exact_mod_cast h

/-! ## `randint` lemmas -/

theorem randint_none {a b : ℤ} (h : b < a) (s : RStream) :
    randint a b s = none := by
  unfold randint
  exact if_pos h

theorem randint_some {a b : ℤ} (h : a ≤ b) (s : RStream) :
    ∃ v, randint a b s = some (v, rtail s) ∧ a ≤ v ∧ v ≤ b := by
  refine ⟨a + min (b - a) (max 0 ⌊s 0 * ((b : ℚ) - a + 1)⌋), ?_, ?_, ?_⟩
  · unfold randint
    rw [if_neg (not_lt.mpr h)]
  · have h1 : 0 ≤ min (b - a) (max 0 ⌊s 0 * ((b : ℚ) - a + 1)⌋) :=
      le_min (by omega) (le_max_left _ _)
    omega
  · have h2 : min (b - a) (max 0 ⌊s 0 * ((b : ℚ) - a + 1)⌋) ≤ b - a :=
      min_le_left _ _
    omega

theorem randint_inv {a b : ℤ} {s : RStream} {v : ℤ} {s2 : RStream}
    (h : randint a b s = some (v, s2)) : a ≤ v ∧ v ≤ b ∧ s2 = rtail s := by
  unfold randint at h
  by_cases hab : b < a
  · rw [if_pos hab] at h
    exact absurd h (by simp)
  · rw [if_neg hab] at h
    have h1 : 0 ≤ min (b - a) (max 0 ⌊s 0 * ((b : ℚ) - a + 1)⌋) :=
      le_min (by omega) (le_max_left _ _)
    have h2 : min (b - a) (max 0 ⌊s 0 * ((b : ℚ) - a + 1)⌋) ≤ b - a :=
      min_le_left _ _
    obtain ⟨h3, h4⟩ := Prod.mk.injEq .. ▸ Option.some.inj h
    constructor
    · omega
    · exact ⟨by omega, h4.symm⟩

/-! ## Dimension preservation of the stages -/

theorem apply_scanlines_dims (op : ℚ) (f : Frame) :
    sameDims (apply_scanlines op f) f := ⟨rfl, rfl⟩

theorem add_bloom_simple_dims (blur : Frame → Frame) (gain : ℚ) (f : Frame) :
    sameDims (add_bloom_simple blur gain f) f := ⟨rfl, rfl⟩

theorem vignette_dims (st : ℚ) (rp : ℕ → ℕ → ℚ) (f : Frame) :
    sameDims (vignette st rp f) f := ⟨rfl, rfl⟩

theorem add_noise_dims (nz : ℕ → ℕ → ℚ × ℚ × ℚ) (f : Frame) :
    sameDims (add_noise nz f) f := ⟨rfl, rfl⟩

theorem flicker_dims (lo hi : ℚ) (f : Frame) (s : RStream) :
    sameDims (flicker lo hi f s).1 f := ⟨rfl, rfl⟩

theorem chroma_shift_dims (sp : ℤ) (f : Frame) :
    sameDims (chroma_shift sp f) f := by
  unfold chroma_shift
  split
  · exact ⟨rfl, rfl⟩
  · exact ⟨rfl, rfl⟩

theorem barrel_distort_dims (k : ℚ) (f : Frame) :
    sameDimsO (barrel_distort k f) f := by
  unfold barrel_distort
  split
  · exact ⟨rfl, rfl⟩
  · split
    · trivial
    · exact ⟨rfl, rfl⟩

theorem pasteShifted_dims (base : Frame) (ty th sh : ℤ) :
    sameDims (pasteShifted base ty th sh) base := ⟨rfl, rfl⟩

theorem tearBand_dims {h : ℕ} {m : ℤ} {base : Frame} {s : RStream}
    {p : Frame × RStream} (hp : tearBand h m base s = some p) :
    sameDims p.1 base := by
  unfold tearBand at hp
  simp only [Option.bind_eq_some, Option.map_eq_some'] at hp
  obtain ⟨th, _, ty, _, sh, _, hp⟩ := hp
  rw [← hp]
  exact ⟨rfl, rfl⟩

theorem tearLoop_dims {h : ℕ} {m : ℤ} :
    ∀ {n : ℕ} {base : Frame} {s : RStream} {p : Frame × RStream},
      tearLoop h m n base s = some p → sameDims p.1 base := by
  intro n
  induction n with
  | zero =>
    intro base s p hp
    obtain rfl := Option.some.inj hp
    exact ⟨rfl, rfl⟩
  | succ n ih =>
    intro base s p hp
    unfold tearLoop at hp
    simp only [Option.bind_eq_some] at hp
    obtain ⟨q, hq, hp⟩ := hp
    obtain ⟨h1, h2⟩ := tearBand_dims hq
    obtain ⟨h3, h4⟩ := ih hp
    exact ⟨h3.trans h1, h4.trans h2⟩

theorem tearing_inv {m : ℤ} {b : ℤ × ℤ} {f : Frame} {s : RStream}
    {p : Frame × RStream} (hp : tearing m b f s = some p) :
    (m ≤ 0 ∧ p = (f, s)) ∨
      ∃ n : ℤ, tearLoop f.height m n.toNat f (rtail s) = some p := by
  unfold tearing at hp
  split at hp
  · exact Or.inl ⟨by assumption, (Option.some.inj hp).symm⟩
  · simp only [Option.bind_eq_some] at hp
    obtain ⟨n, hn, hl⟩ := hp
    obtain ⟨v, s1⟩ := n
    obtain ⟨_, _, hs⟩ := randint_inv hn
    exact Or.inr ⟨v, by rw [← hs]; exact hl⟩

theorem tearing_dims (m : ℤ) (b : ℤ × ℤ) (f : Frame) (s : RStream) :
    sameDimsP (tearing m b f s) f := by
  rcases htr : tearing m b f s with _ | p
  · trivial
  · show sameDims p.1 f
    rcases tearing_inv htr with ⟨_, rfl⟩ | ⟨n, hl⟩
    · exact ⟨rfl, rfl⟩
    · exact tearLoop_dims hl

/-! ## Range preservation (validity) of the stages -/

theorem satAddPix_inRange (p q : Pix) : inRange (satAddPix p q) :=
  ⟨min_le_right _ _, min_le_right _ _, min_le_right _ _⟩

theorem floor_toNat_le_255_of_lt {v : ℚ} (h : v < 256) : (⌊v⌋).toNat ≤ 255 := by
  have h1 : ⌊v⌋ < (256 : ℤ) := Int.floor_lt.mpr (by exact_mod_cast h)
  omega

theorem scanChan_le (m : ℚ) (c : ℕ) : scanChan m c ≤ 255 := by
  unfold scanChan
  have hv0 : 0 ≤ clip (fl32 (fl32 (byteToQ c) * m)) 0 1 := clip01_nonneg _
  have hv1 : clip (fl32 (fl32 (byteToQ c) * m)) 0 1 ≤ 1 := clip01_le_one _
  have hx0 : 0 ≤ clip (fl32 (fl32 (byteToQ c) * m)) 0 1 * 255 := by positivity
  have hfl : fl32 (clip (fl32 (fl32 (byteToQ c) * m)) 0 1 * 255)
      ≤ (clip (fl32 (fl32 (byteToQ c) * m)) 0 1 * 255) *
        (1 + 2 ^ (1 - (24 : ℤ))) := flRound_le hx0
  have hb : (clip (fl32 (fl32 (byteToQ c) * m)) 0 1 * 255) *
      (1 + 2 ^ (1 - (24 : ℤ))) < 256 := by
    rw [pow_sub_23]
    nlinarith
  exact floor_toNat_le_255_of_lt (lt_of_le_of_lt hfl hb)

theorem apply_scanlines_inRange (op : ℚ) (f : Frame) (y x : ℕ) :
    inRange ((apply_scanlines op f).pix y x) :=
  ⟨scanChan_le _ _, scanChan_le _ _, scanChan_le _ _⟩

theorem vignette_inRange (st : ℚ) (rp : ℕ → ℕ → ℚ) (f : Frame) (y x : ℕ) :
    inRange ((vignette st rp f).pix y x) :=
  ⟨toByte_clip_le _, toByte_clip_le _, toByte_clip_le _⟩

theorem add_noise_inRange (nz : ℕ → ℕ → ℚ × ℚ × ℚ) (f : Frame) (y x : ℕ) :
    inRange ((add_noise nz f).pix y x) :=
  ⟨toByte_clip_le _, toByte_clip_le _, toByte_clip_le _⟩

theorem flicker_inRange (lo hi : ℚ) (f : Frame) (s : RStream) (y x : ℕ) :
    inRange ((flicker lo hi f s).1.pix y x) :=
  ⟨toByte_clip_le _, toByte_clip_le _, toByte_clip_le _⟩

theorem blend_channel_le {g a b : ℚ} (ha : a ≤ 255) (hb : b ≤ 255)
    (h0 : 0 ≤ g) (h1 : g ≤ 1) : a + g * (b - a) ≤ 255 := by
  nlinarith

theorem blendPix_inRange {gain : ℚ} {p q : Pix} (hp : inRange p)
    (hq : inRange q) (h0 : 0 ≤ gain) (h1 : gain ≤ 1) :
    inRange (blendPix gain p q) := by
  obtain ⟨hp1, hp2, hp3⟩ := hp
  obtain ⟨hq1, hq2, hq3⟩ := hq
  exact
    ⟨floor_toNat_le_255 (blend_channel_le (by exact_mod_cast hp1)
        (by exact_mod_cast hq1) h0 h1),
     floor_toNat_le_255 (blend_channel_le (by exact_mod_cast hp2)
        (by exact_mod_cast hq2) h0 h1),
     floor_toNat_le_255 (blend_channel_le (by exact_mod_cast hp3)
        (by exact_mod_cast hq3) h0 h1)⟩

theorem chroma_shift_valid {sp : ℤ} {f : Frame} (hf : f.valid) :
    (chroma_shift sp f).valid := by
  unfold chroma_shift
  split
  · exact hf
  · intro y hy x hx
    have hw : 0 < f.width := lt_of_le_of_lt (Nat.zero_le x) hx
    exact ⟨(hf y hy _ (zmod_lt _ hw)).1, (hf y hy x hx).2.1,
      (hf y hy _ (zmod_lt _ hw)).2.2⟩

theorem clamp_toNat_lt (a : ℤ) {n : ℕ} (hn : 1 ≤ n) :
    (min (max a 0) ((n : ℤ) - 1)).toNat < n := by
  have h1 : min (max a 0) ((n : ℤ) - 1) ≤ (n : ℤ) - 1 := min_le_right _ _
  have h2 : 0 ≤ min (max a 0) ((n : ℤ) - 1) :=
    le_min (le_max_right a 0) (by omega)
  omega

theorem barrel_distort_valid {k : ℚ} {f : Frame} (hf : f.valid) :
    validO (barrel_distort k f) := by
  unfold barrel_distort
  split
  · exact hf
  · split
    · trivial
    · rename_i hdeg
      push_neg at hdeg
      intro y _ x _
      dsimp only
      exact hf _ (clamp_toNat_lt _ (by omega)) _ (clamp_toNat_lt _ (by omega))

theorem pasteShifted_valid {base : Frame} {ty th sh : ℤ} (hb : base.valid) :
    (pasteShifted base ty th sh).valid := by
  intro y hy x hx
  unfold pasteShifted
  dsimp only
  split
  · exact hb y hy _ (zmod_lt _ (lt_of_le_of_lt (Nat.zero_le x) hx))
  · exact hb y hy x hx

theorem tearBand_valid {h : ℕ} {m : ℤ} {base : Frame} {s : RStream}
    {p : Frame × RStream} (hp : tearBand h m base s = some p)
    (hb : base.valid) : p.1.valid := by
  unfold tearBand at hp
  simp only [Option.bind_eq_some, Option.map_eq_some'] at hp
  obtain ⟨th, _, ty, _, sh, _, hp⟩ := hp
  rw [← hp]
  exact pasteShifted_valid hb

theorem tearLoop_valid {h : ℕ} {m : ℤ} :
    ∀ {n : ℕ} {base : Frame} {s : RStream} {p : Frame × RStream},
      tearLoop h m n base s = some p → base.valid → p.1.valid := by
  intro n
  induction n with
  | zero =>
    intro base s p hp hb
    obtain rfl := Option.some.inj hp
    exact hb
  | succ n ih =>
    intro base s p hp hb
    unfold tearLoop at hp
    simp only [Option.bind_eq_some] at hp
    obtain ⟨q, hq, hp⟩ := hp
    exact ih hp (tearBand_valid hq hb)

theorem tearing_valid (m : ℤ) (b : ℤ × ℤ) {f : Frame} (s : RStream)
    (hf : f.valid) : validP (tearing m b f s) := by
  rcases htr : tearing m b f s with _ | p
  · trivial
  · show p.1.valid
    rcases tearing_inv htr with ⟨_, rfl⟩ | ⟨n, hl⟩
    · exact hf
    · exact tearLoop_valid hl hf

/-! ## Totality of tearing on tall-enough frames, and of the renderer -/

theorem tearBand_some {h : ℕ} (m : ℤ) (base : Frame) (s : RStream)
    (hm : 0 ≤ m) (hh : 6 ≤ h) : ∃ p, tearBand h m base s = some p := by
  have hfl : ⌊(h : ℚ) * (6 / 100)⌋ ≤ (h : ℤ) := by
    have h1 : (h : ℚ) * (6 / 100) ≤ (h : ℚ) :=
      mul_le_of_le_one_right (Nat.cast_nonneg h) (by norm_num)
    calc ⌊(h : ℚ) * (6 / 100)⌋ ≤ ⌊(h : ℚ)⌋ := Int.floor_le_floor h1
      _ = (h : ℤ) := Int.floor_natCast h
  have h46 : (4 : ℤ) ≤ max 6 ⌊(h : ℚ) * (6 / 100)⌋ :=
    le_trans (by norm_num) (le_max_left _ _)
  obtain ⟨th, hth, hth4, hthle⟩ := randint_some h46 s
  have hthh : th ≤ (h : ℤ) :=
    le_trans hthle (max_le (by exact_mod_cast hh) hfl)
  obtain ⟨ty, hty, _, _⟩ :=
    randint_some (by omega : (0 : ℤ) ≤ (h : ℤ) - th) (rtail s)
  obtain ⟨sh, hsh, _, _⟩ :=
    randint_some (by omega : -m ≤ m) (rtail (rtail s))
  refine ⟨(pasteShifted base ty th sh, rtail (rtail (rtail s))), ?_⟩
  unfold tearBand
  rw [hth]
  show (randint 0 ((h : ℤ) - th) (rtail s)).bind _ = _
  rw [hty]
  show (randint (-m) m (rtail (rtail s))).map _ = _
  rw [hsh]
  rfl

theorem tearLoop_some {h : ℕ} {m : ℤ} (hm : 0 ≤ m) (hh : 6 ≤ h) :
    ∀ (n : ℕ) (base : Frame) (s : RStream), ∃ p, tearLoop h m n base s = some p := by
  intro n
  induction n with
  | zero => exact fun base s => ⟨(base, s), rfl⟩
  | succ n ih =>
    intro base s
    obtain ⟨p, hp⟩ := tearBand_some m base s hm hh
    obtain ⟨q, hq⟩ := ih p.1 p.2
    refine ⟨q, ?_⟩
    show (tearBand h m base s).bind _ = _
    rw [hp]
    exact hq

theorem tearing_some (m : ℤ) {b : ℤ × ℤ} {f : Frame} (s : RStream)
    (hb : b.1 ≤ b.2) (hh : 6 ≤ f.height) : ∃ p, tearing m b f s = some p := by
  by_cases hm : m ≤ 0
  · exact ⟨(f, s), by unfold tearing; rw [if_pos hm]⟩
  · obtain ⟨n, hn, _, _⟩ := randint_some hb s
    obtain ⟨p, hp⟩ :=
      tearLoop_some (le_of_lt (not_le.mp hm)) hh n.toNat f (rtail s)
    refine ⟨p, ?_⟩
    unfold tearing
    rw [if_neg hm, hn]
    exact hp

theorem barrel_distort_some (k : ℚ) {f : Frame} (hw : 2 ≤ f.width)
    (hh : 2 ≤ f.height) : ∃ g, barrel_distort k f = some g := by
  unfold barrel_distort
  split
  · exact ⟨f, rfl⟩
  · rw [if_neg (by omega : ¬(f.width ≤ 1 ∨ f.height ≤ 1))]
    exact ⟨_, rfl⟩

theorem postFx_some (env : RenderEnv) (i : ℕ) {f : Frame} (s : RStream)
    (hw : 2 ≤ f.width) (hh : 2 ≤ f.height) : ∃ p, postFx env i f s = some p := by
  obtain ⟨g, hg⟩ := barrel_distort_some (k := CURVATURE_K)
    (f := (flicker FLICKER_MIN FLICKER_MAX
      (add_noise (env.noise i)
        (vignette VIGNETTE_STRENGTH env.rpow15
          (apply_scanlines SCANLINE_OPACITY f))) s).1) hw hh
  refine ⟨(g, (flicker FLICKER_MIN FLICKER_MAX
      (add_noise (env.noise i)
        (vignette VIGNETTE_STRENGTH env.rpow15
          (apply_scanlines SCANLINE_OPACITY f))) s).2), ?_⟩
  unfold postFx
  dsimp only
  rw [hg]
  rfl

theorem baseFrame_dims (env : RenderEnv) (w h : ℕ)
    (hD : preservesDims env.drawText) :
    (baseFrame env w h).width = w ∧ (baseFrame env w h).height = h := by
  constructor
  · show (env.drawText (crt_background env.rFun env.powf w h
      CRT_BG_TINT CRT_BG_STRENGTH)).width = w
    rw [(hD _).1]
    rfl
  · show (env.drawText (crt_background env.rFun env.powf w h
      CRT_BG_TINT CRT_BG_STRENGTH)).height = h
    rw [(hD _).2]
    rfl

theorem renderFrame_some (env : RenderEnv) {w h : ℕ} (i : ℕ) (s : RStream)
    (hD : preservesDims env.drawText) (hw : 2 ≤ w) (hh : 6 ≤ h) :
    ∃ p, renderFrame env w h i s = some p := by
  obtain ⟨hbw, hbh⟩ := baseFrame_dims env w h hD
  unfold renderFrame
  dsimp only
  by_cases hi : i ∈ CHROMA_GLITCH_FRAMES
  · rw [if_pos hi]
    have hch : (chroma_shift CHROMA_SHIFT_PX (baseFrame env w h)).height = h :=
      (chroma_shift_dims _ _).2.trans hbh
    obtain ⟨p, hp⟩ := tearing_some (b := (2, 4))
      (f := chroma_shift CHROMA_SHIFT_PX (baseFrame env w h))
      TEAR_SHIFT_PX s (by norm_num) (by rw [hch]; exact hh)
    have hpd := tearing_dims TEAR_SHIFT_PX (2, 4)
      (chroma_shift CHROMA_SHIFT_PX (baseFrame env w h)) s
    rw [hp] at hpd
    obtain ⟨hpw, hph⟩ := hpd
    obtain ⟨q, hq⟩ := postFx_some env i p.2
      (by rw [hpw, (chroma_shift_dims _ _).1, hbw]; exact hw)
      (by rw [hph, hch]; omega)
    refine ⟨q, ?_⟩
    rw [hp]
    exact hq
  · rw [if_neg hi]
    by_cases hu : s 0 < TEAR_PROB
    · rw [if_pos hu]
      obtain ⟨p, hp⟩ := tearing_some (b := TEAR_BANDS)
        (f := baseFrame env w h) (TEAR_SHIFT_PX / 2) (rtail s)
        (by norm_num [TEAR_BANDS]) (by rw [hbh]; exact hh)
      have hpd := tearing_dims (TEAR_SHIFT_PX / 2) TEAR_BANDS
        (baseFrame env w h) (rtail s)
      rw [hp] at hpd
      obtain ⟨hpw, hph⟩ := hpd
      obtain ⟨q, hq⟩ := postFx_some env i p.2
        (by rw [hpw, hbw]; exact hw) (by rw [hph, hbh]; omega)
      refine ⟨q, ?_⟩
      rw [hp]
      exact hq
    · rw [if_neg hu]
      obtain ⟨q, hq⟩ := postFx_some env i (rtail s)
        (by rw [hbw]; exact hw) (by rw [hbh]; omega)
      exact ⟨q, hq⟩

theorem renderCount_spec (env : RenderEnv) {w h : ℕ}
    (hD : preservesDims env.drawText) (hw : 2 ≤ w) (hh : 6 ≤ h) :
    ∀ (n i : ℕ) (s : RStream), ∃ fs s2,
      renderCount env w h i n s = some (fs, s2) ∧ fs.length = n ∧
      ∀ j (hj : j < fs.length), ∃ sj sj2,
        renderFrame env w h (i + j) sj = some (fs.get ⟨j, hj⟩, sj2) := by
  intro n
  induction n with
  | zero =>
    intro i s
    exact ⟨[], s, rfl, rfl, fun j hj => absurd hj (by simp)⟩
  | succ n ih =>
    intro i s
    obtain ⟨p, hp⟩ := renderFrame_some env i s hD hw hh
    obtain ⟨fs, s2, hc, hlen, hidx⟩ := ih (i + 1) p.2
    refine ⟨p.1 :: fs, s2, ?_, by simp [hlen], ?_⟩
    · show (renderFrame env w h i s).bind _ = _
      rw [hp]
      show (renderCount env w h (i + 1) n p.2).map _ = _
      rw [hc]
      rfl
    · intro j hj
      cases j with
      | zero => exact ⟨s, p.2, hp⟩
      | succ j =>
        obtain ⟨sj, sj2, hf⟩ := hidx j (by simpa using hj)
        refine ⟨sj, sj2, ?_⟩
        have heq : i + (j + 1) = (i + 1) + j := by omega
        rw [heq]
        exact hf

/-! ## Scanline and background value lemmas -/

theorem scanMask_even {op : ℚ} {y : ℕ} (h : y % 2 = 0) : scanMask op y = 1 := by
  unfold scanMask
  rw [if_neg (by omega)]

theorem scanMask_odd {op : ℚ} {y : ℕ} (h : y % 2 = 1) :
    scanMask op y = fl32 (fl64 (1 - op)) := by
  unfold scanMask
  rw [if_pos h]

set_option maxHeartbeats 4000000 in
set_option maxRecDepth 4000 in
/-- The float32 round trip `uint8 → /255 → *1 → clip → *255 → uint8` is the
identity on every byte value: even rows are untouched exactly, float32
rounding notwithstanding (exhaustive check over all 256 byte values). -/
theorem scanChan_one_id : ∀ c : ℕ, c ≤ 255 → scanChan 1 c = c := by
  with_unfolding_all decide

set_option maxHeartbeats 4000000 in
set_option maxRecDepth 4000 in
/-- At the configured opacity, the float32 odd-row value stays within one
grey level of the ideal `(1 - opacity) · c` (exhaustive check over all 256
byte values); the bound 1 is attained, e.g. at `c = 50`. -/
theorem scanChan_bound : ∀ c : ℕ, c ≤ 255 →
    |(scanChan (fl32 (fl64 (1 - SCANLINE_OPACITY))) c : ℚ) -
      (1 - 22 / 100) * c| ≤ 1 := by
  with_unfolding_all decide

theorem rowMean_const {f : Frame} {y : ℕ} {v : ℕ} (hw : 0 < f.width)
    (h : ∀ x, f.pix y x = ⟨v, v, v⟩) : rowMean f y = v := by
  unfold rowMean
  have hterm : ∀ x ∈ Finset.range f.width,
      (((f.pix y x).r : ℚ) + ((f.pix y x).g : ℚ) + ((f.pix y x).b : ℚ)) / 3
        = (v : ℚ) := by
    intro x _
    rw [h x]
    ring
  rw [Finset.sum_congr rfl hterm, Finset.sum_const, Finset.card_range,
    nsmul_eq_mul]
  exact mul_div_cancel_left₀ _ (by exact_mod_cast hw.ne')

theorem satAddPix_bg {q : Pix} (hq : inRange q) : satAddPix BG q = q := by
  cases q with
  | mk r g b =>
    obtain ⟨h1, h2, h3⟩ := hq
    dsimp only at h1 h2 h3
    simp only [satAddPix, BG, Pix.mk.injEq]
    omega

/-! ## Claims -/

/-- C2: every effects-pipeline stage (apply_scanlines, add_bloom_simple,
vignette, add_noise, barrel_distort, chroma_shift, tearing, flicker) maps a
frame to a frame of the same width and height (vacuously so for the random
draws on which a fallible stage raises). -/
theorem c2_dims_preserved (f : Frame) (op gain st k lo hi : ℚ)
    (blur : Frame → Frame) (rp : ℕ → ℕ → ℚ) (nz : ℕ → ℕ → ℚ × ℚ × ℚ)
    (sp m : ℤ) (b : ℤ × ℤ) (s : RStream) :
    sameDims (apply_scanlines op f) f ∧
    sameDims (add_bloom_simple blur gain f) f ∧
    sameDims (vignette st rp f) f ∧
    sameDims (add_noise nz f) f ∧
    sameDimsO (barrel_distort k f) f ∧
    sameDims (chroma_shift sp f) f ∧
    sameDimsP (tearing m b f s) f ∧
    sameDims (flicker lo hi f s).1 f :=
  ⟨apply_scanlines_dims op f, add_bloom_simple_dims blur gain f,
   vignette_dims st rp f, add_noise_dims nz f, barrel_distort_dims k f,
   chroma_shift_dims sp f, tearing_dims m b f s, flicker_dims lo hi f s⟩

/-- C3: every stage keeps all channel values inside the display range
`0..255`.  The clipping stages (scanlines, vignette, noise, flicker) do so
for every input whatsoever; bloom does for in-range inputs, blur outputs and
gain in `[0, 1]`; the resampling stages (barrel distortion, chroma shift,
tearing) do for every in-range input, on every pixel they produce. -/
theorem c3_range :
    (∀ (op : ℚ) (f : Frame) (y x : ℕ),
      inRange ((apply_scanlines op f).pix y x)) ∧
    (∀ (blur : Frame → Frame) (gain : ℚ) (f : Frame), f.valid →
      (∀ y < f.height, ∀ x < f.width, inRange ((blur f).pix y x)) →
      0 ≤ gain → gain ≤ 1 →
      ∀ y < f.height, ∀ x < f.width,
        inRange ((add_bloom_simple blur gain f).pix y x)) ∧
    (∀ (st : ℚ) (rp : ℕ → ℕ → ℚ) (f : Frame) (y x : ℕ),
      inRange ((vignette st rp f).pix y x)) ∧
    (∀ (nz : ℕ → ℕ → ℚ × ℚ × ℚ) (f : Frame) (y x : ℕ),
      inRange ((add_noise nz f).pix y x)) ∧
    (∀ (k : ℚ) (f : Frame), f.valid → validO (barrel_distort k f)) ∧
    (∀ (sp : ℤ) (f : Frame), f.valid → (chroma_shift sp f).valid) ∧
    (∀ (m : ℤ) (b : ℤ × ℤ) (f : Frame) (s : RStream), f.valid →
      validP (tearing m b f s)) ∧
    (∀ (lo hi : ℚ) (f : Frame) (s : RStream) (y x : ℕ),
      inRange ((flicker lo hi f s).1.pix y x)) := by
  refine ⟨apply_scanlines_inRange, ?_, vignette_inRange, add_noise_inRange,
    fun k f hf => barrel_distort_valid hf, fun sp f hf => chroma_shift_valid hf,
    fun m b f s hf => tearing_valid m b s hf, flicker_inRange⟩
  intro blur gain f hf hblur h0 h1 y hy x hx
  exact blendPix_inRange (hf y hy x hx) (hblur y hy x hx) h0 h1

/-- C3 witness: the hypotheses hold and the range invariant follows at the
concrete 2×2 frame `tf`, the identity blur, and the configured parameters. -/
theorem c3_witness :
    Frame.valid tf ∧ ((0 : ℚ) ≤ BLOOM_GAIN ∧ BLOOM_GAIN ≤ 1) ∧
    (∀ y < tf.height, ∀ x < tf.width,
      inRange ((add_bloom_simple id BLOOM_GAIN tf).pix y x)) ∧
    validO (barrel_distort CURVATURE_K tf) ∧
    (chroma_shift CHROMA_SHIFT_PX tf).valid ∧
    validP (tearing TEAR_SHIFT_PX (2, 4) tf s0) := by
  have hv : Frame.valid tf := by decide
  have hg0 : (0 : ℚ) ≤ BLOOM_GAIN := by norm_num [BLOOM_GAIN]
  have hg1 : BLOOM_GAIN ≤ 1 := by norm_num [BLOOM_GAIN]
  exact ⟨hv, ⟨hg0, hg1⟩, c3_range.2.1 id BLOOM_GAIN tf hv hv hg0 hg1,
    c3_range.2.2.2.2.1 CURVATURE_K tf hv,
    c3_range.2.2.2.2.2.1 CHROMA_SHIFT_PX tf hv,
    c3_range.2.2.2.2.2.2.1 TEAR_SHIFT_PX (2, 4) tf s0 hv⟩

/-- C6: the disabling short-circuits — `barrel_distort` with `k = 0` returns
its input identically, `tearing` with `max_shift ≤ 0` returns its input (and
stream) unchanged, `chroma_shift` with `shift_px = 0` returns its input. -/
theorem c6_short_circuits (f : Frame) (s : RStream) (m : ℤ) (b : ℤ × ℤ) :
    barrel_distort 0 f = some f ∧
    (m ≤ 0 → tearing m b f s = some (f, s)) ∧
    chroma_shift 0 f = f := by
  refine ⟨?_, ?_, ?_⟩
  · unfold barrel_distort
    rw [if_pos le_rfl]
  · intro hm
    unfold tearing
    rw [if_pos hm]
  · unfold chroma_shift
    rw [if_pos le_rfl]

/-- C6 witness: the short-circuits evaluated at the concrete frame `tf`. -/
theorem c6_witness :
    barrel_distort 0 tf = some tf ∧ ((0 : ℤ) ≤ 0) ∧
    tearing 0 (1, 3) tf s0 = some (tf, s0) ∧ chroma_shift 0 tf = tf :=
  ⟨(c6_short_circuits tf s0 0 (1, 3)).1, le_refl 0,
   (c6_short_circuits tf s0 0 (1, 3)).2.1 (le_refl 0),
   (c6_short_circuits tf s0 0 (1, 3)).2.2⟩

/-- C8 (amended): `tearing` with `max_shift > 0` and a nonempty band range
completes and returns a frame on every frame of height at least 6 (below
that, `randint(0, h - th)` can see an empty range and raise); and
`barrel_distort` completes on every frame with both dimensions at least 2. -/
theorem c8_amended (m : ℤ) (b : ℤ × ℤ) (f : Frame) (s : RStream)
    (hm : 0 < m) (hb : b.1 ≤ b.2) (hh : 6 ≤ f.height) :
    (∃ p, tearing m b f s = some p) ∧
    (∀ (k : ℚ) (g : Frame), 2 ≤ g.width → 2 ≤ g.height →
      ∃ g2, barrel_distort k g = some g2) :=
  ⟨tearing_some m s hb hh, fun k g hw hh2 => barrel_distort_some k hw hh2⟩

/-- C8 witness: tearing completes on the concrete 2×6 frame with the
configured kick parameters. -/
theorem c8_witness :
    ((0 : ℤ) < 16 ∧ ((2 : ℤ), (4 : ℤ)).1 ≤ ((2 : ℤ), (4 : ℤ)).2 ∧
      6 ≤ tf6.height) ∧
    (∃ p, tearing 16 (2, 4) tf6 s0 = some p) ∧
    (∀ (k : ℚ) (g : Frame), 2 ≤ g.width → 2 ≤ g.height →
      ∃ g2, barrel_distort k g = some g2) :=
  ⟨⟨by decide, by decide, by decide⟩,
   c8_amended 16 (2, 4) tf6 s0 (by decide) (by decide) (by decide)⟩

/-- C8 counterexample: the claim quantifies over every frame with positive
dimensions, but on the 1×1 frame `tf1` (positive dimensions, `max_shift =
16 > 0`) tearing raises — the band height draw is at least 4, so
`randint(0, h - th)` has the empty range `[0, -3]` and `random.randint`
raises `ValueError` (modelled as `none`). -/
theorem c8_counterexample :
    0 < tf1.width ∧ 0 < tf1.height ∧ (0 : ℤ) < 16 ∧
    tearing 16 (2, 4) tf1 s0 = none :=
  ⟨by decide, by decide, by decide, by with_unfolding_all rfl⟩

/-- C10: for `shift_px ≥ 1`, `chroma_shift` offsets the red channel so that
output column `x` reads input column `(x + shift) mod w`, leaves green
untouched, offsets blue to `(x - shift) mod w`, and the wrapped source
columns are always inside the frame (pixels reappear at the opposite edge
rather than being dropped). -/
theorem c10_chroma_wrap (f : Frame) (sp : ℤ) (y x : ℕ) (hsp : 1 ≤ sp) :
    ((chroma_shift sp f).pix y x).r
        = (f.pix y (zmod ((x : ℤ) + sp) f.width)).r ∧
    ((chroma_shift sp f).pix y x).g = (f.pix y x).g ∧
    ((chroma_shift sp f).pix y x).b
        = (f.pix y (zmod ((x : ℤ) - sp) f.width)).b ∧
    (0 < f.width → zmod ((x : ℤ) + sp) f.width < f.width ∧
      zmod ((x : ℤ) - sp) f.width < f.width) := by
  have hn : ¬ sp ≤ 0 := by omega
  unfold chroma_shift
  rw [if_neg hn]
  exact ⟨rfl, rfl, rfl, fun hw => ⟨zmod_lt _ hw, zmod_lt _ hw⟩⟩

/-- C10 witness: the channel wraparound at the concrete frame `tf`,
`shift_px = 1`, pixel `(0, 1)`. -/
theorem c10_witness :
    (1 : ℤ) ≤ 1 ∧
    (((chroma_shift 1 tf).pix 0 1).r
        = (tf.pix 0 (zmod ((1 : ℤ) + 1) tf.width)).r ∧
     ((chroma_shift 1 tf).pix 0 1).g = (tf.pix 0 1).g ∧
     ((chroma_shift 1 tf).pix 0 1).b
        = (tf.pix 0 (zmod ((1 : ℤ) - 1) tf.width)).b ∧
     (0 < tf.width → zmod ((1 : ℤ) + 1) tf.width < tf.width ∧
       zmod ((1 : ℤ) - 1) tf.width < tf.width)) :=
  ⟨le_refl 1, c10_chroma_wrap tf 1 0 1 (le_refl 1)⟩

/-- C1 (amended): for every size whose width is at least 2 and height at
least 6 (both configured sizes qualify) and every random stream,
`render_sequence` succeeds and produces exactly `FRAMES = 48` frames, and
the `j`-th collected frame is one rendered for frame index `j` — frames
appear in frame-index order regardless of which glitch branch each frame
takes.  (The external text-drawing step preserves dimensions, as PIL's
in-place `draw.text` does.) -/
theorem c1_amended (env : RenderEnv) (w h : ℕ) (s : RStream)
    (hD : preservesDims env.drawText) (hw : 2 ≤ w) (hh : 6 ≤ h) :
    ∃ args, render_sequence env w h s = some args ∧
      args.frames.length = FRAMES ∧
      ∀ j (hj : j < args.frames.length), ∃ sj sj2,
        renderFrame env w h j sj = some (args.frames.get ⟨j, hj⟩, sj2) := by
  obtain ⟨fs, s2, hc, hlen, hidx⟩ := renderCount_spec env hD hw hh FRAMES 0 s
  refine ⟨⟨fs, (DURATION_MS : ℚ) / 1000, 0⟩, ?_, hlen, ?_⟩
  · unfold render_sequence
    rw [hc]
    rfl
  · intro j hj
    obtain ⟨sj, sj2, hf⟩ := hidx j hj
    rw [Nat.zero_add] at hf
    exact ⟨sj, sj2, hf⟩

/-- C1 witness: at the configured banner size 1200×480 the renderer
produces exactly the 48 frames in index order. -/
theorem c1_witness :
    (preservesDims env0.drawText ∧ 2 ≤ BANNER_SIZE.1 ∧ 6 ≤ BANNER_SIZE.2) ∧
    (∃ args, render_sequence env0 BANNER_SIZE.1 BANNER_SIZE.2 s0 = some args ∧
      args.frames.length = FRAMES ∧
      ∀ j (hj : j < args.frames.length), ∃ sj sj2,
        renderFrame env0 BANNER_SIZE.1 BANNER_SIZE.2 j sj
          = some (args.frames.get ⟨j, hj⟩, sj2)) :=
  ⟨⟨fun f => ⟨rfl, rfl⟩, by decide, by decide⟩,
   c1_amended env0 BANNER_SIZE.1 BANNER_SIZE.2 s0 (fun f => ⟨rfl, rfl⟩)
     (by decide) (by decide)⟩

/-- C1 counterexample: the claim quantifies over every output size, but at
size 1×1 the unconditional kick-frame tearing of frame 0 raises (`randint`
on an empty range), so `render_sequence` aborts and produces no frame
sequence at all, let alone 48 frames. -/
theorem c1_counterexample : render_sequence env0 1 1 s0 = none := by
  with_unfolding_all rfl

/-- C4: frames whose index is in `CHROMA_GLITCH_FRAMES = {0, 1}` get
chroma-shift followed by the stronger tearing with band range `(2, 4)`
unconditionally — no `random.random()` draw is consumed for the branch
decision; every other frame consumes one uniform draw and gets the weaker
tearing (half shift, band range `TEAR_BANDS = (1, 3)`) exactly when that
draw is below `TEAR_PROB = 1/2`, independently per frame (each frame uses a
fresh draw from the stream position it is handed). -/
theorem c4_kick (env : RenderEnv) (w h : ℕ) (s : RStream) (i : ℕ) :
    (i ∈ CHROMA_GLITCH_FRAMES →
      renderFrame env w h i s =
        (tearing TEAR_SHIFT_PX (2, 4)
          (chroma_shift CHROMA_SHIFT_PX (baseFrame env w h)) s).bind
          (fun p => postFx env i p.1 p.2)) ∧
    (i ∉ CHROMA_GLITCH_FRAMES → s 0 < TEAR_PROB →
      renderFrame env w h i s =
        (tearing (TEAR_SHIFT_PX / 2) TEAR_BANDS (baseFrame env w h)
          (rtail s)).bind (fun p => postFx env i p.1 p.2)) ∧
    (i ∉ CHROMA_GLITCH_FRAMES → ¬ s 0 < TEAR_PROB →
      renderFrame env w h i s = postFx env i (baseFrame env w h) (rtail s)) ∧
    CHROMA_GLITCH_FRAMES = {0, 1} ∧ TEAR_PROB = 1 / 2 ∧
    TEAR_BANDS.1 < 2 ∧ TEAR_BANDS.2 < 4 := by
  refine ⟨?_, ?_, ?_, rfl, rfl, by norm_num [TEAR_BANDS], by norm_num [TEAR_BANDS]⟩
  · intro hi
    unfold renderFrame
    dsimp only
    rw [if_pos hi]
  · intro hi hu
    unfold renderFrame
    dsimp only
    rw [if_neg hi, if_pos hu]
  · intro hi hu
    unfold renderFrame
    dsimp only
    rw [if_neg hi, if_neg hu]
    rfl

/-- C4 witness: frame 0 is a kick frame and takes the unconditional branch;
frame 5 with an all-ones stream (draw `1 ≥ 1/2`) takes no tearing. -/
theorem c4_witness :
    (0 ∈ CHROMA_GLITCH_FRAMES ∧ 5 ∉ CHROMA_GLITCH_FRAMES ∧
      ¬ sOne 0 < TEAR_PROB) ∧
    renderFrame env0 2 6 0 s0 =
      (tearing TEAR_SHIFT_PX (2, 4)
        (chroma_shift CHROMA_SHIFT_PX (baseFrame env0 2 6)) s0).bind
        (fun p => postFx env0 0 p.1 p.2) ∧
    renderFrame env0 2 6 5 sOne = postFx env0 5 (baseFrame env0 2 6) (rtail sOne) :=
  ⟨⟨by decide, by decide, by with_unfolding_all decide⟩,
   (c4_kick env0 2 6 s0 0).1 (by decide),
   (c4_kick env0 2 6 sOne 5).2.2.1 (by decide) (by with_unfolding_all decide)⟩

/-- C9 (amended): the encoder is handed a per-frame duration of
`int(1000/12) = 83` milliseconds — the integer truncation of `1000 /
frameRate`, not `1000/12` exactly — expressed as `83/1000` seconds, and the
loop argument `0`, GIF's loop-forever flag. -/
theorem c9_amended :
    DURATION_MS = 83 ∧ FPS = 12 ∧
    ∀ (env : RenderEnv) (w h : ℕ) (s : RStream),
      SaveOk (render_sequence env w h s) := by
  have hd : DURATION_MS = 83 := by with_unfolding_all rfl
  refine ⟨hd, rfl, ?_⟩
  intro env w h s
  unfold render_sequence
  rcases renderCount env w h 0 FRAMES s with _ | p
  · trivial
  · show SaveOk (some ⟨p.1, (DURATION_MS : ℚ) / 1000, 0⟩)
    refine ⟨?_, rfl⟩
    show (DURATION_MS : ℚ) / 1000 = 83 / 1000
    rw [hd]
    norm_num

/-- C9 counterexample: the written per-frame duration is `DURATION_MS = 83`
milliseconds, which differs from the claimed `1000 / frameRate = 1000/12`
milliseconds (Python's `int()` truncates the quotient). -/
theorem c9_counterexample :
    DURATION_MS = 83 ∧ (DURATION_MS : ℚ) ≠ 1000 / (FPS : ℚ) :=
  ⟨by with_unfolding_all rfl, by with_unfolding_all decide⟩

/-- C5 (amended): on a uniform-brightness frame of value `c ≤ 255`,
`apply_scanlines` leaves every even row untouched — the float32 round trip
`/255, *1, clip, *255, uint8` is the identity on every byte value — and
maps every odd-row channel to the single float32-chain value
`scanChan (fl32 (fl64 (1 - opacity))) c`, so each odd row's average
brightness equals that value.  At the configured opacity the odd value is
within one grey level of `(1 - opacity) · c`, but in general not equal to
it: float32 rounding plus the `uint8` truncation break the claimed exact
ratio (at `c = 255` the odd-row average is 198 against `198.9`; at
`c = 50` the program produces 38 where even the ideal truncation
`⌊(1 - opacity) · c⌋` gives 39). -/
theorem c5_amended :
    (∀ (w h c : ℕ) (op : ℚ), 0 < w → c ≤ 255 →
      (∀ y x, y % 2 = 0 →
        (apply_scanlines op (uniformFrame w h c)).pix y x = ⟨c, c, c⟩) ∧
      (∀ y x, y % 2 = 1 →
        (apply_scanlines op (uniformFrame w h c)).pix y x =
          ⟨scanChan (fl32 (fl64 (1 - op))) c,
           scanChan (fl32 (fl64 (1 - op))) c,
           scanChan (fl32 (fl64 (1 - op))) c⟩) ∧
      (∀ y, y % 2 = 0 →
        rowMean (apply_scanlines op (uniformFrame w h c)) y = c) ∧
      (∀ y, y % 2 = 1 →
        rowMean (apply_scanlines op (uniformFrame w h c)) y
          = (scanChan (fl32 (fl64 (1 - op))) c : ℚ))) ∧
    (∀ c : ℕ, c ≤ 255 →
      |(scanChan (fl32 (fl64 (1 - SCANLINE_OPACITY))) c : ℚ) -
        (1 - 22 / 100) * c| ≤ 1) := by
  constructor
  · intro w h c op hw hc
    have heven : ∀ y x, y % 2 = 0 →
        (apply_scanlines op (uniformFrame w h c)).pix y x = ⟨c, c, c⟩ := by
      intro y x hy
      show mapPix (scanChan (scanMask op y)) ⟨c, c, c⟩ = ⟨c, c, c⟩
      rw [scanMask_even hy]
      unfold mapPix
      dsimp only
      rw [scanChan_one_id c hc]
    have hodd : ∀ y x, y % 2 = 1 →
        (apply_scanlines op (uniformFrame w h c)).pix y x =
          ⟨scanChan (fl32 (fl64 (1 - op))) c,
           scanChan (fl32 (fl64 (1 - op))) c,
           scanChan (fl32 (fl64 (1 - op))) c⟩ := by
      intro y x hy
      show mapPix (scanChan (scanMask op y)) ⟨c, c, c⟩ = _
      rw [scanMask_odd hy]
      rfl
    exact ⟨heven, hodd,
      fun y hy => rowMean_const hw (fun x => heven y x hy),
      fun y hy => rowMean_const hw (fun x => hodd y x hy)⟩
  · exact scanChan_bound

/-- C5 witness: the even/odd behavior at the concrete uniform 2×2 frame of
value 255 and the configured opacity, and the one-grey-level bound at the
tightest input `c = 50`. -/
theorem c5_witness :
    (0 < 2 ∧ (255 : ℕ) ≤ 255 ∧ (50 : ℕ) ≤ 255) ∧
    ((∀ y x, y % 2 = 0 →
      (apply_scanlines SCANLINE_OPACITY (uniformFrame 2 2 255)).pix y x
        = ⟨255, 255, 255⟩) ∧
    (∀ y x, y % 2 = 1 →
      (apply_scanlines SCANLINE_OPACITY (uniformFrame 2 2 255)).pix y x =
        ⟨scanChan (fl32 (fl64 (1 - SCANLINE_OPACITY))) 255,
         scanChan (fl32 (fl64 (1 - SCANLINE_OPACITY))) 255,
         scanChan (fl32 (fl64 (1 - SCANLINE_OPACITY))) 255⟩) ∧
    (∀ y, y % 2 = 0 →
      rowMean (apply_scanlines SCANLINE_OPACITY (uniformFrame 2 2 255)) y
        = 255) ∧
    (∀ y, y % 2 = 1 →
      rowMean (apply_scanlines SCANLINE_OPACITY (uniformFrame 2 2 255)) y
        = (scanChan (fl32 (fl64 (1 - SCANLINE_OPACITY))) 255 : ℚ))) ∧
    |(scanChan (fl32 (fl64 (1 - SCANLINE_OPACITY))) 50 : ℚ) -
      (1 - 22 / 100) * 50| ≤ 1 :=
  ⟨⟨by decide, by decide, by decide⟩,
   c5_amended.1 2 2 255 SCANLINE_OPACITY (by decide) (by decide),
   c5_amended.2 50 (by decide)⟩

set_option maxHeartbeats 4000000 in
set_option maxRecDepth 4000 in
/-- C5 counterexample: with the configured opacity (in `[0, 1]`) and the
uniform 1×2 frame of brightness 255, the odd row's average brightness is
198 while `(1 - opacity)` times the even-row brightness is `198.9`: the
claimed exact equality fails.  Moreover at `c = 50` the float32 program
produces 38 although the ideal truncation `⌊(1 - 22/100) · 50⌋` is 39, so
not even the exact-rational formula describes the program. -/
theorem c5_counterexample :
    (0 : ℚ) ≤ SCANLINE_OPACITY ∧ SCANLINE_OPACITY ≤ 1 ∧
    rowMean (apply_scanlines SCANLINE_OPACITY (uniformFrame 1 2 255)) 0
      = 255 ∧
    rowMean (apply_scanlines SCANLINE_OPACITY (uniformFrame 1 2 255)) 1
      = 198 ∧
    ¬ (rowMean (apply_scanlines SCANLINE_OPACITY (uniformFrame 1 2 255)) 1
        = (1 - 22 / 100) *
          rowMean (apply_scanlines SCANLINE_OPACITY (uniformFrame 1 2 255)) 0) ∧
    scanChan (fl32 (fl64 (1 - SCANLINE_OPACITY))) 50 = 38 ∧
    ⌊(1 - 22 / 100 : ℚ) * 50⌋ = 39 := by
  with_unfolding_all decide

/-- C7 (amended): for every tint with in-range channels and every strength
with `0 ≤ strength ≤ 1`, `crt_background` keeps all channel values in
`0..255`, its saturating add over the black base never saturates (the frame
IS the glow layer, pixel for pixel), and at a center pixel (normalized
radius 0, where the float power `0 ** 1.8` is exactly 0) the radial mask is
exactly `strength` and the pre-clip glow value is already inside `[0, 1]`,
so the clip is the identity there — no clipping at the center.  (For
negative strength the center value is clipped up to 0, so the lower bound on
strength is necessary; see the counterexample.) -/
theorem c7_amended (rFun : ℕ → ℕ → ℚ) (powf : ℚ → ℚ → ℚ) (w h : ℕ)
    (tint : Pix) (strength : ℚ) (yc xc : ℕ) (htint : inRange tint)
    (hs0 : 0 ≤ strength) (hs1 : strength ≤ 1) (hr : rFun yc xc = 0)
    (hp0 : powf 0 (9 / 5) = 0) :
    (∀ y x, inRange ((crt_background rFun powf w h tint strength).pix y x)) ∧
    (∀ y x, (crt_background rFun powf w h tint strength).pix y x
        = (crt_glow rFun powf w h tint strength).pix y x) ∧
    crt_mask rFun powf strength yc xc = strength ∧
    (clip (crt_raw rFun powf tint strength yc xc).1 0 1
        = (crt_raw rFun powf tint strength yc xc).1 ∧
     clip (crt_raw rFun powf tint strength yc xc).2.1 0 1
        = (crt_raw rFun powf tint strength yc xc).2.1 ∧
     clip (crt_raw rFun powf tint strength yc xc).2.2 0 1
        = (crt_raw rFun powf tint strength yc xc).2.2) ∧
    (crt_background rFun powf w h tint strength).pix yc xc
      = ⟨(⌊byteToQ tint.r * strength * 255⌋).toNat,
         (⌊byteToQ tint.g * strength * 255⌋).toNat,
         (⌊byteToQ tint.b * strength * 255⌋).toNat⟩ := by
  have hglow : ∀ y x,
      inRange ((crt_glow rFun powf w h tint strength).pix y x) := by
    intro y x
    exact ⟨toByte_clip_le _, toByte_clip_le _, toByte_clip_le _⟩
  have hadd : ∀ y x, (crt_background rFun powf w h tint strength).pix y x
      = (crt_glow rFun powf w h tint strength).pix y x := by
    intro y x
    show satAddPix BG ((crt_glow rFun powf w h tint strength).pix y x) = _
    exact satAddPix_bg (hglow y x)
  have hmask : crt_mask rFun powf strength yc xc = strength := by
    unfold crt_mask
    rw [hr, hp0]
    ring
  have hraw : ∀ t : ℕ, t ≤ 255 →
      (0 ≤ byteToQ t * crt_mask rFun powf strength yc xc ∧
       byteToQ t * crt_mask rFun powf strength yc xc ≤ 1) := by
    intro t ht
    rw [hmask]
    exact ⟨mul_nonneg (byteToQ_nonneg t) hs0,
      mul_le_one₀ (byteToQ_le_one ht) hs0 hs1⟩
  obtain ⟨ht1, ht2, ht3⟩ := htint
  refine ⟨fun y x => (hadd y x) ▸ hglow y x, hadd, hmask, ?_, ?_⟩
  · exact ⟨clip_eq_self (hraw tint.r ht1).1 (hraw tint.r ht1).2,
      clip_eq_self (hraw tint.g ht2).1 (hraw tint.g ht2).2,
      clip_eq_self (hraw tint.b ht3).1 (hraw tint.b ht3).2⟩
  · rw [hadd yc xc]
    show (⟨toByte (clip (byteToQ tint.r * crt_mask rFun powf strength yc xc) 0 1),
          toByte (clip (byteToQ tint.g * crt_mask rFun powf strength yc xc) 0 1),
          toByte (clip (byteToQ tint.b * crt_mask rFun powf strength yc xc) 0 1)⟩
        : Pix) = _
    rw [clip_eq_self (hraw tint.r ht1).1 (hraw tint.r ht1).2,
      clip_eq_self (hraw tint.g ht2).1 (hraw tint.g ht2).2,
      clip_eq_self (hraw tint.b ht3).1 (hraw tint.b ht3).2, hmask]
    rfl

/-- C7 witness: the guarantees at the configured tint and strength, a 2×2
size, the constant-zero radius grid and the zero power function (both
satisfying the center hypotheses). -/
theorem c7_witness :
    (inRange CRT_BG_TINT ∧ (0 : ℚ) ≤ 18 / 100 ∧ (18 / 100 : ℚ) ≤ 1 ∧
      (fun _ _ => (0 : ℚ)) 0 0 = (0 : ℚ) ∧
      (fun _ _ => (0 : ℚ)) (0 : ℚ) ((9 : ℚ) / 5) = (0 : ℚ)) ∧
    ((∀ y x, inRange ((crt_background (fun _ _ => 0) (fun _ _ => 0) 2 2
        CRT_BG_TINT (18 / 100)).pix y x)) ∧
    (∀ y x, (crt_background (fun _ _ => 0) (fun _ _ => 0) 2 2 CRT_BG_TINT
        (18 / 100)).pix y x
      = (crt_glow (fun _ _ => 0) (fun _ _ => 0) 2 2 CRT_BG_TINT
        (18 / 100)).pix y x) ∧
    crt_mask (fun _ _ => 0) (fun _ _ => 0) (18 / 100) 0 0 = 18 / 100 ∧
    (clip (crt_raw (fun _ _ => 0) (fun _ _ => 0) CRT_BG_TINT (18 / 100) 0 0).1
        0 1 = (crt_raw (fun _ _ => 0) (fun _ _ => 0) CRT_BG_TINT
        (18 / 100) 0 0).1 ∧
     clip (crt_raw (fun _ _ => 0) (fun _ _ => 0) CRT_BG_TINT (18 / 100) 0
        0).2.1 0 1 = (crt_raw (fun _ _ => 0) (fun _ _ => 0) CRT_BG_TINT
        (18 / 100) 0 0).2.1 ∧
     clip (crt_raw (fun _ _ => 0) (fun _ _ => 0) CRT_BG_TINT (18 / 100) 0
        0).2.2 0 1 = (crt_raw (fun _ _ => 0) (fun _ _ => 0) CRT_BG_TINT
        (18 / 100) 0 0).2.2) ∧
    (crt_background (fun _ _ => 0) (fun _ _ => 0) 2 2 CRT_BG_TINT
        (18 / 100)).pix 0 0
      = ⟨(⌊byteToQ CRT_BG_TINT.r * (18 / 100) * 255⌋).toNat,
         (⌊byteToQ CRT_BG_TINT.g * (18 / 100) * 255⌋).toNat,
         (⌊byteToQ CRT_BG_TINT.b * (18 / 100) * 255⌋).toNat⟩) :=
  ⟨⟨by decide, by norm_num, by norm_num, rfl, rfl⟩,
   c7_amended (fun _ _ => 0) (fun _ _ => 0) 2 2 CRT_BG_TINT (18 / 100) 0 0
     (by decide) (by norm_num) (by norm_num) rfl rfl⟩

/-- C7 counterexample: the claim quantifies over every strength `≤ 1`, but
at strength `-1` (with the configured tint, the zero radius grid and zero
power function, so the chosen pixel is a center pixel) the pre-clip green
glow value at the center is negative and the clip changes it — clipping
does occur at the center, so the claim's "no clipping at the center" fails
without the lower bound `0 ≤ strength`. -/
theorem c7_counterexample :
    ((-1 : ℚ) ≤ 1) ∧
    (crt_raw (fun _ _ => 0) (fun _ _ => 0) CRT_BG_TINT (-1) 0 0).2.1 < 0 ∧
    clip (crt_raw (fun _ _ => 0) (fun _ _ => 0) CRT_BG_TINT (-1) 0 0).2.1 0 1
      ≠ (crt_raw (fun _ _ => 0) (fun _ _ => 0) CRT_BG_TINT (-1) 0 0).2.1 ∧
    (crt_background (fun _ _ => 0) (fun _ _ => 0) 2 2 CRT_BG_TINT (-1)).pix 0 0
      = ⟨0, 0, 0⟩ := by
  with_unfolding_all decide

end CRT
